import Mathlib

/-!
Verification of the backup-service delivery pipeline.

Shallow embedding of the core of the `yarre-uk/backup-service` repository:
the sender's delivery ledger (`BackupTracker`), the stability detector
(`_wait_for_file_stable`), directory reconciliation, the per-cycle
processing of unsent artifacts, the upload progress wrapper
(`ProgressFileWrapper`), and the receiver's retention enforcer
(`BackupManager.enforce_size_limit`, `save_backup`) together with the
HTTP endpoints' status-code classification.

Python dicts are modelled as insertion-ordered association lists,
filesystem listings as lists of `Artifact` records, and Python exceptions
as explicit `Except`/`Option` results.
-/

namespace BackupService

/-! Section: receiver directory entries and the retention enforcer -/

/-- One entry of a stream's archive directory, as observed by
`Path(archive_path).iterdir()`: a name, a modification time, a byte size,
and whether the entry is a regular file (`is_file()`). -/
structure Artifact where
  name : String
  mtime : Int
  size : Int
  isFile : Bool
  deriving DecidableEq, Repr

/-- Insert `a` into a list that is already ascending by `mtime`, before the
first entry whose `mtime` is not smaller.  Together with `sortByMtime` this
models Python's stable `sorted(..., key=lambda x: x.stat().st_mtime)`. -/
def insertByMtime (a : Artifact) : List Artifact → List Artifact
  | [] => [a]
  | b :: l => if a.mtime ≤ b.mtime then a :: b :: l else b :: insertByMtime a l

/-- Stable sort of a directory listing ascending by modification time,
modelling `sorted(Path(archive_path).iterdir(), key=lambda x: x.stat().st_mtime)`. -/
def sortByMtime : List Artifact → List Artifact
  | [] => []
  | a :: l => insertByMtime a (sortByMtime l)

/-- Total bytes of the regular files in a listing, modelling
`sum(b.stat().st_size for b in backups if b.is_file())`. -/
def totalSize (l : List Artifact) : Int :=
  ((l.filter (fun a => a.isFile)).map (fun a => a.size)).sum

/-- The `while total_size > max_size_bytes and backups:` loop of
`enforce_size_limit`: pop the oldest entry; if it is a regular file, unlink
it and subtract its size from the running total.  Returns the entries that
remain on the working list when the loop exits.  `total` is the running
`total_size` and `maxB` is `max_size_bytes`. -/
def evictLoop : List Artifact → Int → Int → List Artifact
  | [], _, _ => []
  | oldest :: rest, total, maxB =>
    if total ≤ maxB then oldest :: rest
    else if oldest.isFile then evictLoop rest (total - oldest.size) maxB
    else evictLoop rest total maxB

/-- Model of `BackupManager.enforce_size_limit` for one stream: `maxGb` is the
configured `max_size_gb`; if it is `≤ 0` retention is disabled and the
listing is untouched; otherwise sort ascending by mtime, compute the total
size of files, and evict oldest-first until the total fits the budget or
the list is exhausted.  Returns the surviving entries (popped non-file
entries are not unlinked by the code and carry no resident bytes). -/
def enforceSizeLimit (maxGb : Int) (listing : List Artifact) : List Artifact :=
  if maxGb ≤ 0 then listing
  else
    evictLoop (sortByMtime listing) (totalSize (sortByMtime listing))
      (maxGb * 1073741824)

/-- Model of `BackupManager.save_backup`: reject an unconfigured stream with
`ValueError` (modelled as `Except.error`); otherwise write the incoming
file into the stream's directory, overwriting any entry of the same name,
then synchronously run `enforce_size_limit`.  `games` maps stream names to
their `max_size_gb`; the result is the stream's resident listing when the
call returns. -/
def saveBackup (games : List (String × Int)) (game filename : String)
    (size mtime : Int) (listing : List Artifact) :
    Except String (List Artifact) :=
  match games.find? (fun g => g.1 = game) with
  | none => Except.error ("Unknown game: " ++ game)
  | some g =>
    let written := listing.filter (fun a => a.name ≠ filename)
      ++ [Artifact.mk filename mtime size true]
    Except.ok (enforceSizeLimit g.2 written)

/-- Status code of the `POST /backup` endpoint for a given stream name:
`save_backup` raises `ValueError` for an unknown stream, which the handler
converts to HTTP 400; a configured stream whose save succeeds yields 200. -/
def receiveBackupStatus (games : List (String × Int)) (game : String) : Nat :=
  if games.any (fun g => g.1 = game) then 200 else 400

/-- Status code of the `GET /stats` endpoint.  The query parameter is
optional; Python's `if game_name:` treats both `None` and the empty string
as "no stream given" (stats for all streams, 200).  A non-empty name that
is not configured hits `self.games[game_name]`, raising `KeyError`, which
the handler's `except Exception` converts to HTTP 500. -/
def getStatsStatus (games : List (String × Int)) (q : Option String) : Nat :=
  match q with
  | none => 200
  | some g =>
    if g = "" then 200
    else if games.any (fun p => p.1 = g) then 200 else 500

/-! Section: sender delivery ledger, the BackupTracker class -/

/-- Python-dict assignment `d[k] = v` on an insertion-ordered association
list: update in place if the key is present, else append. -/
def dictSet (l : List (String × Bool)) (k : String) (v : Bool) :
    List (String × Bool) :=
  if l.any (fun p => p.1 = k) then
    l.map (fun p => if p.1 = k then (k, v) else p)
  else l ++ [(k, v)]

/-- Lookup in the insertion-ordered association list. -/
def dictGet (l : List (String × Bool)) (k : String) : Option Bool :=
  (l.find? (fun p => p.1 = k)).map (fun p => p.2)

/-- Python `del d[k]`. -/
def dictDel (l : List (String × Bool)) (k : String) : List (String × Bool) :=
  l.filter (fun p => p.1 ≠ k)

/-- `str(is_sent)` as written into the CSV row. -/
def boolStr (b : Bool) : String := if b then "True" else "False"

/-- Model of `BackupTracker._save`: one CSV data row `(filename, str(is_sent))` per
record, in dict order (the header row is fixed and carried implicitly). -/
def saveRows (records : List (String × Bool)) : List (String × String) :=
  records.map (fun p => (p.1, boolStr p.2))

/-- Model of `BackupTracker._load`: a missing tracker file (`none`) leaves the
records empty; otherwise each row sets `records[filename] = is_sent == 'True'`
starting from the empty dict. -/
def loadRows (file : Option (List (String × String))) : List (String × Bool) :=
  match file with
  | none => []
  | some rows => rows.foldl (fun acc row => dictSet acc row.1 (row.2 = "True")) []

/-- The in-memory ledger together with the persisted tracker file
(`none` = no file on disk yet). -/
structure BackupTracker where
  records : List (String × Bool)
  persisted : Option (List (String × String))
  deriving DecidableEq, Repr

/-- Model of `BackupTracker._save`: rewrite the whole tracker file from the records. -/
def BackupTracker.save (t : BackupTracker) : BackupTracker :=
  BackupTracker.mk t.records (some (saveRows t.records))

/-- Model of `BackupTracker.add_file`: record the filename as unsent and persist,
a no-op (no write) when already tracked. -/
def BackupTracker.addFile (t : BackupTracker) (filename : String) :
    BackupTracker :=
  if t.records.any (fun p => p.1 = filename) then t
  else (BackupTracker.mk (dictSet t.records filename false) t.persisted).save

/-- Model of `BackupTracker.mark_sent`: `self.records[filename] = True` followed by
`_save`, with no tracked-ness check. -/
def BackupTracker.markSent (t : BackupTracker) (filename : String) :
    BackupTracker :=
  (BackupTracker.mk (dictSet t.records filename true) t.persisted).save

/-- Model of `BackupTracker.remove_file`: delete the entry and persist when present,
a no-op otherwise. -/
def BackupTracker.removeFile (t : BackupTracker) (filename : String) :
    BackupTracker :=
  if t.records.any (fun p => p.1 = filename) then
    (BackupTracker.mk (dictDel t.records filename) t.persisted).save
  else t

/-- Model of `BackupTracker.get_unsent`: the filenames whose flag is false, in dict
order. -/
def BackupTracker.getUnsent (t : BackupTracker) : List String :=
  (t.records.filter (fun p => p.2 = false)).map (fun p => p.1)

/-! Section: sender directory reconciliation and the batch cycle -/

/-- Model of `BackupSender._is_backup_file`: the name ends with one of the
configured backup extensions. -/
def isBackupFile (exts : List String) (filename : String) : Bool :=
  exts.any (fun e => filename.endsWith e)

/-- Model of `BackupSender.reconcile_directory`: compute the current backup files,
drop tracked names that disappeared, then add untracked newcomers as
unsent.  `listing` is the directory's regular files. -/
def reconcileDirectory (t : BackupTracker) (listing exts : List String) :
    BackupTracker :=
  let current := listing.filter (isBackupFile exts)
  let tracked := t.records.map (fun p => p.1)
  let deleted := tracked.filter (fun f => ¬ current.contains f)
  let newFiles := current.filter (fun f => ¬ tracked.contains f)
  let afterRemove := deleted.foldl (fun acc f => acc.removeFile f) t
  newFiles.foldl (fun acc f => acc.addFile f) afterRemove

/-- Outcome of one `send_backup` attempt, as classified by the sender:
`success` is an HTTP 200 response; everything else makes `send_backup`
return `False`. -/
inductive SendOutcome where
  | success
  | notStable
  | rejected (code : Nat)
  | timeoutErr
  | connectionErr
  | otherErr
  deriving DecidableEq, Repr

/-- Predicate for `send_backup` returning `True`: it does so exactly on a 200 response
after the stability gate; every failure path returns `False`. -/
def sendSucceeds (o : SendOutcome) : Bool :=
  match o with
  | SendOutcome.success => true
  | _ => false

/-- Model of `BackupSender.process_unsent`: iterate over the unsent names; when
`send_backup` succeeds mark the name sent, otherwise log and continue.
`env` gives each artifact's upload outcome; the ghost second component
records the names on which `mark_sent` was called, in order. -/
def processUnsent (t : BackupTracker) (env : String → SendOutcome) :
    BackupTracker × List String :=
  t.getUnsent.foldl
    (fun acc f =>
      if sendSucceeds (env f) then (acc.1.markSent f, acc.2 ++ [f])
      else acc)
    (t, [])

/-! Section: sender stability detector -/

/-- Loop body of `BackupSender._wait_for_file_stable`, driven by the
successive size observations the poll would make (`none` = the file is
gone, `some sz` = `os.path.getsize` returned `sz`; the transient-OSError
retry branch is not modelled).  `prev` is `previous_size` (initially -1),
`count` is `stable_count`, `elapsed` advances by 2 per `time.sleep(2)` and
is compared against `timeout` exactly where the code does.  When an
observation equals `previous_size` the code increments `stable_count` and
then returns `True` unconditionally — the `return True` sits at the level
of the `if stable_count >= 3:` test, not inside it, so the inner test only
gates a log line.  Returns `none` when the observation list runs out
before the loop decides. -/
def waitForFileStableLoop :
    List (Option Int) → Int → Nat → Int → Int → Option Bool
  | [], _, _, _, _ => none
  | obs :: rest, prev, count, elapsed, timeout =>
    match obs with
    | none => some false
    | some cur =>
      if cur = prev then
        let _newCount := count + 1
        some true
      else
        let elapsed2 := elapsed + 2
        if timeout < elapsed2 then some false
        else waitForFileStableLoop rest cur 0 elapsed2 timeout

/-- Model of `BackupSender._wait_for_file_stable`: run the polling loop
from `previous_size = -1`, `stable_count = 0`, zero elapsed time. -/
def waitForFileStable (obs : List (Option Int)) (timeout : Int) :
    Option Bool :=
  waitForFileStableLoop obs (-1) 0 0 timeout

/-- Modelled from the spec (and from the code's own comment, `# 3
consecutive checks with same size`): the stability loop as specified,
returning `True` only once `stable_count` reaches 3, used to exhibit where
the code diverges from the specification. -/
def waitForFileStableIntendedLoop :
    List (Option Int) → Int → Nat → Int → Int → Option Bool
  | [], _, _, _, _ => none
  | obs :: rest, prev, count, elapsed, timeout =>
    match obs with
    | none => some false
    | some cur =>
      if cur = prev then
        let count2 := count + 1
        if 3 ≤ count2 then some true
        else
          let elapsed2 := elapsed + 2
          if timeout < elapsed2 then some false
          else waitForFileStableIntendedLoop rest cur count2 elapsed2 timeout
      else
        let elapsed2 := elapsed + 2
        if timeout < elapsed2 then some false
        else waitForFileStableIntendedLoop rest cur 0 elapsed2 timeout

/-- Modelled from the spec: entry point of the intended stability check. -/
def waitForFileStableIntended (obs : List (Option Int)) (timeout : Int) :
    Option Bool :=
  waitForFileStableIntendedLoop obs (-1) 0 0 timeout

/-! Section: sender upload progress wrapper -/

/-- One `ProgressFileWrapper.read` call: the chunk just read has length
`chunkLen`; the wrapper adds it to `self.uploaded` and then computes
`progress = (self.uploaded / self.total_size) * 100`.  That division
raises `ZeroDivisionError` when `total_size` is 0, modelled as
`Except.error ()`; otherwise the wrapper returns the data unchanged, and
the new `(uploaded, last_print)` pair is the wrapper's state (the
percentage, modelled over `Int`, only gates a log line). -/
def progressRead (total uploaded lastPrint chunkLen : Int) :
    Except Unit (Int × Int) :=
  let uploaded2 := uploaded + chunkLen
  if total = 0 then Except.error ()
  else
    let progress := uploaded2 * 100 / total
    if 10 ≤ progress - lastPrint then Except.ok (uploaded2, progress)
    else Except.ok (uploaded2, lastPrint)

/-- Stream a file through the wrapper the way the HTTP client does when it
assembles the request body: successive reads of the given chunk lengths
(an empty file is read once, yielding an empty chunk).  The first raised
error aborts the stream. -/
def readAllThroughWrapper (total : Int) (chunks : List Int) :
    Except Unit (Int × Int) :=
  chunks.foldlM (fun p chunk => progressRead total p.1 p.2 chunk) (0, 0)

/-- Model of `BackupSender.send_backup` with the progress wrapper in
place: the stability gate first; then inside `try`, the body is streamed
through the wrapper — any exception it raises (the `ZeroDivisionError`
included) is caught by `except Exception` and turns the whole send into
`False`; otherwise the result is the classification of the server
outcome. -/
def sendBackupWithProgress (stable : Bool) (fileSize : Int)
    (chunks : List Int) (server : SendOutcome) : Bool :=
  if stable then
    match readAllThroughWrapper fileSize chunks with
    | Except.error _ => false
    | Except.ok _ => sendSucceeds server
  else false

/-- Modelled from the spec: the same single-attempt upload with no
progress observation — its outcome is the server outcome's classification
alone, the baseline against which the wrapper must be neutral. -/
def sendBackupNoProgress (stable : Bool) (server : SendOutcome) : Bool :=
  if stable then sendSucceeds server else false

/-! Section: lemmas about the retention enforcer -/

theorem totalSize_nil : totalSize [] = 0 := rfl

theorem totalSize_cons (a : Artifact) (l : List Artifact) :
    totalSize (a :: l) = (if a.isFile then a.size else 0) + totalSize l := by
  by_cases h : a.isFile = true <;>
    simp [totalSize, List.filter_cons, h]

theorem totalSize_append (l1 l2 : List Artifact) :
    totalSize (l1 ++ l2) = totalSize l1 + totalSize l2 := by
  simp [totalSize, List.filter_append]

theorem totalSize_nonneg (l : List Artifact)
    (h : ∀ a ∈ l, a.isFile = true → 0 ≤ a.size) : 0 ≤ totalSize l := by
  induction l with
  | nil => simp [totalSize_nil]
  | cons a l ih =>
    rw [totalSize_cons]
    have hl : 0 ≤ totalSize l := ih (fun b hb => h b (List.mem_cons_of_mem a hb))
    by_cases ha : a.isFile = true
    · have hs := h a (List.mem_cons_self a l) ha
      rw [if_pos ha]
      omega
    · rw [if_neg ha]
      omega

theorem evictLoop_nil (total maxB : Int) : evictLoop [] total maxB = [] := rfl

theorem evictLoop_cons (a : Artifact) (r : List Artifact) (total maxB : Int) :
    evictLoop (a :: r) total maxB =
      if total ≤ maxB then a :: r
      else if a.isFile then evictLoop r (total - a.size) maxB
      else evictLoop r total maxB := rfl

theorem evictLoop_of_le (l : List Artifact) (total maxB : Int)
    (h : total ≤ maxB) : evictLoop l total maxB = l := by
  cases l with
  | nil => rfl
  | cons a l => rw [evictLoop_cons, if_pos h]

theorem evictLoop_budget (l : List Artifact) (maxB : Int) :
    ∀ total, total = totalSize l →
      totalSize (evictLoop l total maxB) ≤ maxB ∨ evictLoop l total maxB = [] := by
  induction l with
  | nil => intro total _; right; rfl
  | cons a l ih =>
    intro total htot
    by_cases hle : total ≤ maxB
    · left
      rw [evictLoop_of_le _ _ _ hle, ← htot]
      exact hle
    · rw [totalSize_cons] at htot
      by_cases hf : a.isFile = true
      · rw [evictLoop_cons, if_neg hle, if_pos hf]
        exact ih (total - a.size) (by rw [if_pos hf] at htot; omega)
      · rw [evictLoop_cons, if_neg hle, if_neg hf]
        exact ih total (by rw [if_neg hf] at htot; omega)

theorem evictLoop_all_big (x : Artifact) (maxB : Int)
    (hx : x.isFile = true) (hbig : maxB < x.size) :
    ∀ l, (∀ a ∈ l, a.isFile = true → 0 ≤ a.size) →
      evictLoop (l ++ [x]) (totalSize (l ++ [x])) maxB = [] := by
  intro l
  induction l with
  | nil =>
    intro _
    have h1 : totalSize ([] ++ [x]) = x.size := by
      rw [List.nil_append, totalSize_cons, totalSize_nil, if_pos hx]
      omega
    rw [List.nil_append] at h1 ⊢
    rw [evictLoop_cons, if_neg (by omega), if_pos hx, evictLoop_nil]
  | cons a l ih =>
    intro hnn
    have hxs : totalSize [x] = x.size := by
      rw [totalSize_cons, totalSize_nil, if_pos hx]; omega
    have hl0 : 0 ≤ totalSize l :=
      totalSize_nonneg l (fun b hb => hnn b (List.mem_cons_of_mem a hb))
    have hrest : x.size ≤ totalSize (l ++ [x]) := by
      rw [totalSize_append]; omega
    have htot : totalSize ((a :: l) ++ [x])
        = (if a.isFile then a.size else 0) + totalSize (l ++ [x]) := by
      rw [List.cons_append, totalSize_cons]
    have ihl := ih (fun b hb => hnn b (List.mem_cons_of_mem a hb))
    by_cases hf : a.isFile = true
    · have ha0 : 0 ≤ a.size := hnn a (List.mem_cons_self a l) hf
      have hgt : ¬ totalSize ((a :: l) ++ [x]) ≤ maxB := by
        rw [if_pos hf] at htot; omega
      rw [List.cons_append, evictLoop_cons]
      rw [List.cons_append] at hgt htot
      rw [if_neg hgt, if_pos hf]
      rw [if_pos hf] at htot
      have heq : totalSize (a :: (l ++ [x])) - a.size = totalSize (l ++ [x]) := by
        omega
      rw [heq]
      exact ihl
    · have hgt : ¬ totalSize ((a :: l) ++ [x]) ≤ maxB := by
        rw [if_neg hf] at htot; omega
      rw [List.cons_append, evictLoop_cons]
      rw [List.cons_append] at hgt htot
      rw [if_neg hgt, if_neg hf]
      rw [if_neg hf] at htot
      have heq : totalSize (a :: (l ++ [x])) = totalSize (l ++ [x]) := by omega
      rw [heq]
      exact ihl

/-! Section: lemmas about the stable mtime sort -/

theorem insertByMtime_perm (a : Artifact) (l : List Artifact) :
    List.Perm (insertByMtime a l) (a :: l) := by
  induction l with
  | nil => exact List.Perm.refl _
  | cons b l ih =>
    by_cases hab : a.mtime ≤ b.mtime
    · simp [insertByMtime, hab]
    · simp only [insertByMtime, hab, if_false]
      exact List.Perm.trans (List.Perm.cons b ih) (List.Perm.swap a b l)

theorem sortByMtime_perm (l : List Artifact) :
    List.Perm (sortByMtime l) l := by
  induction l with
  | nil => exact List.Perm.refl _
  | cons a l ih =>
    exact List.Perm.trans (insertByMtime_perm a (sortByMtime l))
      (List.Perm.cons a ih)

theorem insertByMtime_pairwise (a : Artifact) (l : List Artifact)
    (h : List.Pairwise (fun x y => x.mtime ≤ y.mtime) l) :
    List.Pairwise (fun x y => x.mtime ≤ y.mtime) (insertByMtime a l) := by
  induction l with
  | nil => simp [insertByMtime]
  | cons b l ih =>
    rcases List.pairwise_cons.mp h with ⟨hb, hl⟩
    by_cases hab : a.mtime ≤ b.mtime
    · simp only [insertByMtime, hab, if_true]
      refine List.pairwise_cons.mpr ⟨?_, h⟩
      intro c hc
      rcases List.mem_cons.mp hc with hcb | hcl
      · rw [hcb]; exact hab
      · exact le_trans hab (hb c hcl)
    · simp only [insertByMtime, hab, if_false]
      refine List.pairwise_cons.mpr ⟨?_, ih hl⟩
      intro c hc
      rcases List.mem_cons.mp ((insertByMtime_perm a l).mem_iff.mp hc) with hca | hcl
      · rw [hca]; exact le_of_not_le hab
      · exact hb c hcl

theorem sortByMtime_pairwise (l : List Artifact) :
    List.Pairwise (fun x y => x.mtime ≤ y.mtime) (sortByMtime l) := by
  induction l with
  | nil => exact List.Pairwise.nil
  | cons a l ih => exact insertByMtime_pairwise a (sortByMtime l) ih

theorem insertByMtime_append_last (a x : Artifact) (h : a.mtime ≤ x.mtime) :
    ∀ s, insertByMtime a (s ++ [x]) = insertByMtime a s ++ [x] := by
  intro s
  induction s with
  | nil => simp [insertByMtime, h]
  | cons c s ih =>
    by_cases hac : a.mtime ≤ c.mtime
    · simp [insertByMtime, hac]
    · simp [insertByMtime, hac, ih]

theorem sortByMtime_append_last (x : Artifact) :
    ∀ l, (∀ b ∈ l, b.mtime < x.mtime) →
      sortByMtime (l ++ [x]) = sortByMtime l ++ [x] := by
  intro l
  induction l with
  | nil => intro _; simp [sortByMtime, insertByMtime]
  | cons a l ih =>
    intro hlt
    have ha : a.mtime ≤ x.mtime :=
      le_of_lt (hlt a (List.mem_cons_self a l))
    have h1 : sortByMtime ((a :: l) ++ [x])
        = insertByMtime a (sortByMtime (l ++ [x])) := rfl
    rw [h1, ih (fun b hb => hlt b (List.mem_cons_of_mem a hb)),
      insertByMtime_append_last a x ha (sortByMtime l)]
    rfl

/-! Section: claims about the retention enforcer -/

/-- C3: one enforcement pass with budget `maxGb` removes nothing when the
budget is `≤ 0` (retention disabled); otherwise, on return, either the
resident bytes are within `max_size_gb * 1024^3`, or no entry remains on
the working list (zero resident artifacts) — the pass never terminates
with resident artifacts summing to more than the budget. -/
theorem C3_enforce_budget (maxGb : Int) (listing : List Artifact) :
    (maxGb ≤ 0 → enforceSizeLimit maxGb listing = listing) ∧
    (0 < maxGb →
      totalSize (enforceSizeLimit maxGb listing) ≤ maxGb * 1073741824 ∨
      enforceSizeLimit maxGb listing = []) := by
  constructor
  · intro h
    simp only [enforceSizeLimit]
    rw [if_pos h]
  · intro h
    simp only [enforceSizeLimit]
    rw [if_neg (by omega)]
    exact evictLoop_budget (sortByMtime listing) (maxGb * 1073741824) _ rfl

theorem C3_enforce_budget_witness :
    (enforceSizeLimit 0 [Artifact.mk "a" 1 100 true]
      = [Artifact.mk "a" 1 100 true]) ∧
    (totalSize (enforceSizeLimit 1 [Artifact.mk "a" 1 2000000000 true])
        ≤ 1 * 1073741824 ∨
      enforceSizeLimit 1 [Artifact.mk "a" 1 2000000000 true] = []) :=
  ⟨(C3_enforce_budget 0 [Artifact.mk "a" 1 100 true]).1 (by norm_num),
   (C3_enforce_budget 1 [Artifact.mk "a" 1 2000000000 true]).2 (by norm_num)⟩

/-- C4: when the sizes force exactly one eviction (the total exceeds the
budget but fits once the head of the mtime-sorted listing is removed), the
enforcement pass deletes exactly the artifact that the stable sort placed
first: an artifact of minimal modification time, and under pairwise
distinct mtimes the unique artifact of strictly smallest mtime.  The
result being the tail of the stable mtime sort pins down the deterministic
tie-break (original listing order for equal mtimes). -/
theorem C4_eviction_oldest_first (maxGb : Int) (listing : List Artifact)
    (oldest : Artifact) (rest : List Artifact)
    (hpos : 0 < maxGb)
    (hsort : sortByMtime listing = oldest :: rest)
    (hfile : oldest.isFile = true)
    (hover : maxGb * 1073741824 < totalSize (sortByMtime listing))
    (hfits : totalSize (sortByMtime listing) - oldest.size
      ≤ maxGb * 1073741824) :
    enforceSizeLimit maxGb listing = rest ∧
    oldest ∈ listing ∧
    (∀ b ∈ listing, oldest.mtime ≤ b.mtime) ∧
    (List.Pairwise (fun x y => x.mtime ≠ y.mtime) listing →
      ∀ b ∈ listing, b ≠ oldest → oldest.mtime < b.mtime) := by
  have hmem : oldest ∈ listing := by
    have h1 : oldest ∈ sortByMtime listing := by
      rw [hsort]; exact List.mem_cons_self _ _
    exact (sortByMtime_perm listing).mem_iff.mp h1
  have hle : ∀ b ∈ listing, oldest.mtime ≤ b.mtime := by
    intro b hb
    have hbs : b ∈ sortByMtime listing :=
      (sortByMtime_perm listing).mem_iff.mpr hb
    rw [hsort] at hbs
    rcases List.mem_cons.mp hbs with h1 | h2
    · rw [h1]
    · have hp := sortByMtime_pairwise listing
      rw [hsort] at hp
      exact (List.pairwise_cons.mp hp).1 b h2
  refine ⟨?_, hmem, hle, ?_⟩
  · simp only [enforceSizeLimit]
    rw [if_neg (by omega), hsort]
    rw [hsort] at hover hfits
    rw [evictLoop_cons, if_neg (by omega), if_pos hfile]
    exact evictLoop_of_le _ _ _ hfits
  · intro hdist b hb hne
    have hsym : Symmetric (fun x y : Artifact => x.mtime ≠ y.mtime) :=
      fun x y hxy heq => hxy heq.symm
    exact lt_of_le_of_ne (hle b hb) (hdist.forall hsym hmem hb (Ne.symm hne))

theorem C4_eviction_oldest_first_witness :
    enforceSizeLimit 1
        [Artifact.mk "new" 2 1 true, Artifact.mk "old" 1 1073741824 true]
      = [Artifact.mk "new" 2 1 true] ∧
    Artifact.mk "old" 1 1073741824 true
      ∈ [Artifact.mk "new" 2 1 true, Artifact.mk "old" 1 1073741824 true] ∧
    (∀ b ∈ [Artifact.mk "new" 2 1 true, Artifact.mk "old" 1 1073741824 true],
      (Artifact.mk "old" 1 1073741824 true).mtime ≤ b.mtime) ∧
    (List.Pairwise (fun x y => x.mtime ≠ y.mtime)
        [Artifact.mk "new" 2 1 true, Artifact.mk "old" 1 1073741824 true] →
      ∀ b ∈ [Artifact.mk "new" 2 1 true, Artifact.mk "old" 1 1073741824 true],
        b ≠ Artifact.mk "old" 1 1073741824 true →
        (Artifact.mk "old" 1 1073741824 true).mtime < b.mtime) :=
  C4_eviction_oldest_first 1
    [Artifact.mk "new" 2 1 true, Artifact.mk "old" 1 1073741824 true]
    (Artifact.mk "old" 1 1073741824 true) [Artifact.mk "new" 2 1 true]
    (by norm_num) (by decide) rfl (by decide) (by decide)

/-- C5: ingesting an artifact whose size alone exceeds a positive budget —
its modification time being fresher than every resident entry, as a just-
written file's is — triggers an enforcement pass that deletes everything,
the new artifact included: `save_backup` returns with zero resident
artifacts for the stream. -/
theorem C5_oversized_ingest_empties_store (games : List (String × Int))
    (game filename : String) (size mtime : Int) (listing : List Artifact)
    (gcfg : String × Int)
    (hfind : games.find? (fun g => g.1 = game) = some gcfg)
    (hpos : 0 < gcfg.2)
    (hbig : gcfg.2 * 1073741824 < size)
    (hold : ∀ a ∈ listing, 0 ≤ a.size ∧ a.mtime < mtime) :
    saveBackup games game filename size mtime listing = Except.ok [] := by
  have hmemf : ∀ a ∈ listing.filter (fun a => a.name ≠ filename),
      a ∈ listing := fun a ha => (List.mem_filter.mp ha).1
  have hsorteq :
      sortByMtime (listing.filter (fun a => a.name ≠ filename)
          ++ [Artifact.mk filename mtime size true])
        = sortByMtime (listing.filter (fun a => a.name ≠ filename))
          ++ [Artifact.mk filename mtime size true] :=
    sortByMtime_append_last (Artifact.mk filename mtime size true)
      (listing.filter (fun a => a.name ≠ filename))
      (fun b hb => (hold b (hmemf b hb)).2)
  have henf : enforceSizeLimit gcfg.2
      (listing.filter (fun a => a.name ≠ filename)
        ++ [Artifact.mk filename mtime size true]) = [] := by
    simp only [enforceSizeLimit]
    rw [if_neg (by omega), hsorteq]
    exact evictLoop_all_big (Artifact.mk filename mtime size true)
      (gcfg.2 * 1073741824) rfl hbig
      (sortByMtime (listing.filter (fun a => a.name ≠ filename)))
      (fun a ha _ =>
        (hold a (hmemf a
          ((sortByMtime_perm
            (listing.filter (fun a => a.name ≠ filename))).mem_iff.mp ha))).1)
  simp only [saveBackup, hfind, henf]

theorem C5_oversized_ingest_empties_store_witness :
    saveBackup [("alpha", 1)] "alpha" "big.tar" 2000000000 5 []
      = Except.ok [] :=
  C5_oversized_ingest_empties_store [("alpha", 1)] "alpha" "big.tar"
    2000000000 5 [] ("alpha", 1) (by decide) (by norm_num) (by norm_num)
    (by intro a ha; simp at ha)

/-! Section: lemmas about the association-list dict -/

theorem dictGet_nil (k : String) : dictGet [] k = none := rfl

theorem dictGet_cons (p : String × Bool) (l : List (String × Bool))
    (k : String) :
    dictGet (p :: l) k = if p.1 = k then some p.2 else dictGet l k := by
  by_cases h : p.1 = k <;> simp [dictGet, List.find?_cons, h]

theorem dictSet_cons_ne (p : String × Bool) (l : List (String × Bool))
    (k : String) (v : Bool) (h : p.1 ≠ k) :
    dictSet (p :: l) k v = p :: dictSet l k v := by
  by_cases hl : l.any (fun q => q.1 = k) <;>
    simp [dictSet, List.any_cons, h, hl]

theorem dictSet_of_not_mem (l : List (String × Bool)) (k : String) (v : Bool)
    (h : l.any (fun q => q.1 = k) = false) :
    dictSet l k v = l ++ [(k, v)] := by
  simp [dictSet, h]

theorem dictGet_dictSet_self (l : List (String × Bool)) (k : String)
    (v : Bool) : dictGet (dictSet l k v) k = some v := by
  induction l with
  | nil => simp [dictSet, dictGet]
  | cons p l ih =>
    by_cases hp : p.1 = k
    · have h1 : dictSet (p :: l) k v
          = (k, v) :: l.map (fun q => if q.1 = k then (k, v) else q) := by
        simp [dictSet, List.any_cons, hp]
      rw [h1, dictGet_cons]
      simp
    · rw [dictSet_cons_ne p l k v hp, dictGet_cons, if_neg hp]
      exact ih

theorem dictGet_map_set_ne (k k' : String) (v : Bool) (h : k' ≠ k) :
    ∀ l : List (String × Bool),
      dictGet (l.map (fun q => if q.1 = k then (k, v) else q)) k'
        = dictGet l k' := by
  intro l
  induction l with
  | nil => rfl
  | cons q l ih =>
    by_cases hq : q.1 = k
    · simp only [List.map_cons, if_pos hq]
      rw [dictGet_cons, dictGet_cons, if_neg (Ne.symm h),
        if_neg (by rw [hq]; exact Ne.symm h)]
      exact ih
    · simp only [List.map_cons, if_neg hq]
      rw [dictGet_cons, dictGet_cons]
      by_cases hq' : q.1 = k' <;> simp [hq', ih]

theorem dictGet_append_ne (k k' : String) (v : Bool) (h : k' ≠ k) :
    ∀ l : List (String × Bool), dictGet (l ++ [(k, v)]) k' = dictGet l k' := by
  intro l
  induction l with
  | nil =>
    rw [List.nil_append, dictGet_cons, if_neg (Ne.symm h)]
  | cons p l ih =>
    rw [List.cons_append, dictGet_cons, dictGet_cons]
    by_cases hp : p.1 = k' <;> simp [hp, ih]

theorem dictGet_dictSet_ne (l : List (String × Bool)) (k k' : String)
    (v : Bool) (h : k' ≠ k) : dictGet (dictSet l k v) k' = dictGet l k' := by
  by_cases hl : l.any (fun q => q.1 = k)
  · have h1 : dictSet l k v = l.map (fun q => if q.1 = k then (k, v) else q) := by
      simp [dictSet, hl]
    rw [h1, dictGet_map_set_ne k k' v h l]
  · have hl2 : l.any (fun q => q.1 = k) = false := by
      simp only [Bool.not_eq_true] at hl; exact hl
    rw [dictSet_of_not_mem l k v hl2]
    exact dictGet_append_ne k k' v h l

theorem dictGet_dictDel_self (l : List (String × Bool)) (k : String) :
    dictGet (dictDel l k) k = none := by
  induction l with
  | nil => rfl
  | cons p l ih =>
    by_cases hp : p.1 = k
    · have h1 : dictDel (p :: l) k = dictDel l k := by
        simp [dictDel, List.filter_cons, hp]
      rw [h1]; exact ih
    · have h1 : dictDel (p :: l) k = p :: dictDel l k := by
        simp [dictDel, List.filter_cons, hp]
      rw [h1, dictGet_cons, if_neg hp]; exact ih

theorem dictGet_dictDel_ne (l : List (String × Bool)) (k k' : String)
    (h : k' ≠ k) : dictGet (dictDel l k) k' = dictGet l k' := by
  induction l with
  | nil => rfl
  | cons p l ih =>
    by_cases hp : p.1 = k
    · have h1 : dictDel (p :: l) k = dictDel l k := by
        simp [dictDel, List.filter_cons, hp]
      rw [h1, dictGet_cons, if_neg (by rw [hp]; exact Ne.symm h)]
      exact ih
    · have h1 : dictDel (p :: l) k = p :: dictDel l k := by
        simp [dictDel, List.filter_cons, hp]
      rw [h1, dictGet_cons, dictGet_cons]
      by_cases hp' : p.1 = k' <;> simp [hp', ih]

theorem dictGet_eq_none_iff (l : List (String × Bool)) (k : String) :
    dictGet l k = none ↔ l.any (fun p => p.1 = k) = false := by
  induction l with
  | nil => simp [dictGet_nil]
  | cons p l ih =>
    rw [dictGet_cons, List.any_cons]
    by_cases hp : p.1 = k <;> simp [hp, ih]

theorem dictGet_of_mem_nodup (l : List (String × Bool)) (k : String)
    (v : Bool) (hnodup : (l.map Prod.fst).Nodup) (hmem : (k, v) ∈ l) :
    dictGet l k = some v := by
  induction l with
  | nil => cases hmem
  | cons p l ih =>
    rw [List.map_cons, List.nodup_cons] at hnodup
    rw [dictGet_cons]
    rcases List.mem_cons.mp hmem with h1 | h2
    · rw [← h1]
      simp
    · have hk : k ∈ l.map Prod.fst :=
        List.mem_map.mpr ⟨(k, v), h2, rfl⟩
      have hp : p.1 ≠ k := fun he => hnodup.1 (he ▸ hk)
      rw [if_neg hp]
      exact ih hnodup.2 h2

/-! Section: lemmas about the tracker operations -/

theorem markSent_records (t : BackupTracker) (f : String) :
    (t.markSent f).records = dictSet t.records f true := rfl

theorem markSent_persisted (t : BackupTracker) (f : String) :
    (t.markSent f).persisted = some (saveRows (dictSet t.records f true)) :=
  rfl

theorem addFile_records (t : BackupTracker) (f : String) :
    (t.addFile f).records =
      if t.records.any (fun p => p.1 = f) then t.records
      else dictSet t.records f false := by
  by_cases h : t.records.any (fun p => p.1 = f) <;>
    simp [BackupTracker.addFile, BackupTracker.save, h]

theorem dictDel_of_not_mem (l : List (String × Bool)) (k : String)
    (h : l.any (fun p => p.1 = k) = false) : dictDel l k = l := by
  induction l with
  | nil => rfl
  | cons p l ih =>
    rw [List.any_cons] at h
    rcases Bool.or_eq_false_iff.mp h with ⟨h1, h2⟩
    have hp : p.1 ≠ k := by simpa using h1
    have h3 : dictDel (p :: l) k = p :: dictDel l k := by
      simp [dictDel, List.filter_cons, hp]
    rw [h3, ih h2]

theorem removeFile_records (t : BackupTracker) (f : String) :
    (t.removeFile f).records = dictDel t.records f := by
  by_cases h : t.records.any (fun p => p.1 = f)
  · simp [BackupTracker.removeFile, BackupTracker.save, h]
  · have h2 : t.records.any (fun p => p.1 = f) = false := by
      simp only [Bool.not_eq_true] at h; exact h
    simp [BackupTracker.removeFile, BackupTracker.save, h2,
      dictDel_of_not_mem t.records f h2]

/-! Section: the C2 claim, the ledger markSent contract -/

/-- C2 counterexample: on the empty ledger the name `a` is untracked, yet
`mark_sent` does not fail with `NotTracked` — the model of the code is a
total function that mutates the ledger, creating the entry `(a, sent)` in
memory and on disk instead of leaving the ledger unchanged. -/
theorem C2_markSent_counterexample :
    dictGet (BackupTracker.mk [] none).records "a" = none ∧
    BackupTracker.markSent (BackupTracker.mk [] none) "a"
      = BackupTracker.mk [("a", true)] (some [("a", "True")]) :=
  ⟨rfl, rfl⟩

/-- C2 amended: `mark_sent` never fails; for every ledger state and every
name, tracked or not, it sets the name's flag to sent (creating the entry
when absent) and persists the full ledger before returning. -/
theorem C2_markSent_amended (t : BackupTracker) (f : String) :
    dictGet (t.markSent f).records f = some true ∧
    (t.markSent f).persisted = some (saveRows (t.markSent f).records) :=
  ⟨dictGet_dictSet_self t.records f true, rfl⟩

/-! Section: the C7 claim, persistence and the save and load round trip -/

theorem decide_boolStr (b : Bool) : decide (boolStr b = "True") = b := by
  cases b <;> simp [boolStr]

theorem loadRows_aux (rows : List (String × Bool)) :
    ∀ acc : List (String × Bool),
      ((acc ++ rows).map Prod.fst).Nodup →
      (saveRows rows).foldl
          (fun a row => dictSet a row.1 (row.2 = "True")) acc
        = acc ++ rows := by
  induction rows with
  | nil => intro acc _; simp [saveRows]
  | cons p rows ih =>
    intro acc hnodup
    have hfresh : acc.any (fun q => q.1 = p.1) = false := by
      rw [List.map_append] at hnodup
      have hdis := (List.nodup_append.mp hnodup).2.2
      by_cases hq : acc.any (fun q => q.1 = p.1) = true
      · rcases List.any_eq_true.mp hq with ⟨q, hqmem, hqk⟩
        have h1 : p.1 ∈ acc.map Prod.fst :=
          List.mem_map.mpr ⟨q, hqmem, by simpa using hqk⟩
        have h2 : p.1 ∈ (p :: rows).map Prod.fst := by simp
        exact absurd h2 (hdis h1)
      · simp only [Bool.not_eq_true] at hq; exact hq
    have hstep : dictSet acc p.1 (decide (boolStr p.2 = "True"))
        = acc ++ [p] := by
      rw [decide_boolStr, dictSet_of_not_mem acc p.1 p.2 hfresh]
    have hre : (acc ++ [p]) ++ rows = acc ++ (p :: rows) := by
      rw [List.append_assoc]; rfl
    calc (saveRows (p :: rows)).foldl
          (fun a row => dictSet a row.1 (row.2 = "True")) acc
        = (saveRows rows).foldl
            (fun a row => dictSet a row.1 (row.2 = "True"))
            (dictSet acc p.1 (decide (boolStr p.2 = "True"))) := rfl
      _ = (saveRows rows).foldl
            (fun a row => dictSet a row.1 (row.2 = "True")) (acc ++ [p]) := by
          rw [hstep]
      _ = (acc ++ [p]) ++ rows := ih (acc ++ [p]) (by rw [hre]; exact hnodup)
      _ = acc ++ (p :: rows) := hre

theorem loadRows_saveRows (r : List (String × Bool))
    (hnodup : (r.map Prod.fst).Nodup) :
    loadRows (some (saveRows r)) = r := by
  have h := loadRows_aux r [] (by simpa using hnodup)
  simpa [loadRows] using h

/-- C7: every ledger mutation that changes the in-memory records rewrites
the persisted tracker file to exactly the saved form of the new records
before returning (`mark_sent` persists unconditionally; `add_file` and
`remove_file` persist whenever they change the records), loading what was
saved reconstructs every filename with its sent flag, and loading a
missing tracker file yields an empty ledger rather than an error. -/
theorem C7_ledger_persistence_roundtrip (t : BackupTracker) (f : String)
    (r : List (String × Bool)) (hnodup : (r.map Prod.fst).Nodup) :
    ((t.markSent f).persisted = some (saveRows (t.markSent f).records)) ∧
    ((t.addFile f).records ≠ t.records →
      (t.addFile f).persisted = some (saveRows (t.addFile f).records)) ∧
    ((t.removeFile f).records ≠ t.records →
      (t.removeFile f).persisted = some (saveRows (t.removeFile f).records)) ∧
    loadRows (some (saveRows r)) = r ∧
    loadRows none = [] := by
  refine ⟨rfl, ?_, ?_, loadRows_saveRows r hnodup, rfl⟩
  · intro hchanged
    by_cases h : t.records.any (fun p => p.1 = f)
    · exact absurd (by simp [BackupTracker.addFile, h]) hchanged
    · simp [BackupTracker.addFile, BackupTracker.save, h]
  · intro hchanged
    by_cases h : t.records.any (fun p => p.1 = f)
    · simp [BackupTracker.removeFile, BackupTracker.save, h]
    · exact absurd (by simp [BackupTracker.removeFile, h]) hchanged

theorem C7_ledger_persistence_roundtrip_witness :
    ((BackupTracker.mk [("a", false)] none).markSent "a").persisted
        = some (saveRows
            ((BackupTracker.mk [("a", false)] none).markSent "a").records) ∧
    (((BackupTracker.mk [("a", false)] none).addFile "a").records
        ≠ [("a", false)] →
      ((BackupTracker.mk [("a", false)] none).addFile "a").persisted
        = some (saveRows
            ((BackupTracker.mk [("a", false)] none).addFile "a").records)) ∧
    (((BackupTracker.mk [("a", false)] none).removeFile "a").records
        ≠ [("a", false)] →
      ((BackupTracker.mk [("a", false)] none).removeFile "a").persisted
        = some (saveRows
            ((BackupTracker.mk [("a", false)] none).removeFile "a").records)) ∧
    loadRows (some (saveRows [("a", true), ("b", false)]))
      = [("a", true), ("b", false)] ∧
    loadRows none = ([] : List (String × Bool)) :=
  C7_ledger_persistence_roundtrip (BackupTracker.mk [("a", false)] none) "a"
    [("a", true), ("b", false)] (by decide)

/-! Section: lemmas for reconciliation, the C8 claim -/

theorem dictGet_eq_none_iff_map (l : List (String × Bool)) (n : String) :
    dictGet l n = none ↔ n ∉ l.map Prod.fst := by
  rw [dictGet_eq_none_iff]
  constructor
  · intro h hmem
    rcases List.mem_map.mp hmem with ⟨p, hp, hfst⟩
    have h2 : l.any (fun p => p.1 = n) = true :=
      List.any_eq_true.mpr ⟨p, hp, by simp [hfst]⟩
    rw [h] at h2
    exact Bool.false_ne_true h2
  · intro h
    by_cases ha : l.any (fun p => p.1 = n) = true
    · rcases List.any_eq_true.mp ha with ⟨p, hp, hfst⟩
      exact absurd (List.mem_map.mpr ⟨p, hp, by simpa using hfst⟩) h
    · simp only [Bool.not_eq_true] at ha
      exact ha

theorem mem_filter_not_contains (xs ys : List String) (n : String) :
    n ∈ xs.filter (fun f => ¬ ys.contains f) ↔ n ∈ xs ∧ n ∉ ys := by
  simp [List.mem_filter]

theorem foldRemove_get (ds : List String) :
    ∀ (t : BackupTracker) (n : String),
      dictGet ((ds.foldl (fun acc f => acc.removeFile f) t).records) n
        = if n ∈ ds then none else dictGet t.records n := by
  induction ds with
  | nil => intro t n; simp
  | cons d ds ih =>
    intro t n
    rw [List.foldl_cons, ih]
    by_cases hn : n ∈ ds
    · rw [if_pos hn, if_pos (List.mem_cons_of_mem d hn)]
    · rw [if_neg hn]
      by_cases hd : n = d
      · rw [if_pos (by rw [hd]; exact List.mem_cons_self d ds),
          removeFile_records, hd, dictGet_dictDel_self]
      · rw [if_neg (by
            intro hc
            rcases List.mem_cons.mp hc with h1 | h2
            · exact hd h1
            · exact hn h2),
          removeFile_records, dictGet_dictDel_ne _ _ _ hd]

theorem addFile_get (t : BackupTracker) (a n : String) :
    dictGet (t.addFile a).records n =
      match dictGet t.records n with
      | some v => some v
      | none => if n = a then some false else none := by
  rw [addFile_records]
  by_cases h : t.records.any (fun p => p.1 = a) = true
  · rw [if_pos h]
    cases hget : dictGet t.records n with
    | some v => simp
    | none =>
      by_cases hna : n = a
      · exfalso
        rw [hna, dictGet_eq_none_iff] at hget
        rw [hget] at h
        exact Bool.false_ne_true h
      · simp [hna]
  · rw [if_neg h]
    simp only [Bool.not_eq_true] at h
    by_cases hna : n = a
    · rw [hna, dictGet_dictSet_self]
      have h2 : dictGet t.records a = none := (dictGet_eq_none_iff _ _).mpr h
      rw [h2]
      simp
    · rw [dictGet_dictSet_ne _ _ _ _ hna]
      cases hget : dictGet t.records n <;> simp [hna]

theorem foldAdd_get (ns : List String) :
    ∀ (t : BackupTracker) (n : String),
      dictGet ((ns.foldl (fun acc f => acc.addFile f) t).records) n
        = match dictGet t.records n with
          | some v => some v
          | none => if n ∈ ns then some false else none := by
  induction ns with
  | nil =>
    intro t n
    cases hget : dictGet t.records n <;> simp [hget]
  | cons a ns ih =>
    intro t n
    rw [List.foldl_cons, ih, addFile_get]
    cases hget : dictGet t.records n with
    | some v => simp
    | none =>
      by_cases hna : n = a
      · simp [hna, List.mem_cons]
      · by_cases hns : n ∈ ns <;> simp [hna, hns, List.mem_cons]

/-- C8: reconciliation is exact.  With `current` the backup-filtered
directory listing, a tracked name present in `current` keeps its sent flag
untouched, a tracked name absent from `current` is removed from the
ledger, an untracked name present in `current` is added as unsent, and a
name in neither stays untracked. -/
theorem C8_reconcile_exact (t : BackupTracker) (listing exts : List String)
    (n : String) :
    (∀ v, dictGet t.records n = some v →
      n ∈ listing.filter (isBackupFile exts) →
      dictGet (reconcileDirectory t listing exts).records n = some v) ∧
    (dictGet t.records n ≠ none →
      n ∉ listing.filter (isBackupFile exts) →
      dictGet (reconcileDirectory t listing exts).records n = none) ∧
    (dictGet t.records n = none →
      n ∈ listing.filter (isBackupFile exts) →
      dictGet (reconcileDirectory t listing exts).records n = some false) ∧
    (dictGet t.records n = none →
      n ∉ listing.filter (isBackupFile exts) →
      dictGet (reconcileDirectory t listing exts).records n = none) := by
  simp only [reconcileDirectory]
  rw [foldAdd_get, foldRemove_get]
  refine ⟨?_, ?_, ?_, ?_⟩
  · intro v hv hcur
    rw [if_neg (by
      intro hdel
      exact ((mem_filter_not_contains _ _ n).mp hdel).2 hcur)]
    rw [hv]
  · intro hv hcur
    have htr : n ∈ t.records.map Prod.fst := by
      by_contra hno
      exact hv ((dictGet_eq_none_iff_map _ _).mpr hno)
    rw [if_pos ((mem_filter_not_contains _ _ n).mpr ⟨htr, hcur⟩)]
    rw [if_neg (by
      intro hnew
      exact hcur (List.mem_filter.mp hnew).1)]
  · intro hv hcur
    have htr : n ∉ t.records.map Prod.fst :=
      (dictGet_eq_none_iff_map _ _).mp hv
    rw [if_neg (by
      intro hdel
      exact htr ((mem_filter_not_contains _ _ n).mp hdel).1)]
    rw [hv]
    rw [if_pos ((mem_filter_not_contains _ _ n).mpr ⟨hcur, htr⟩)]
  · intro hv hcur
    have htr : n ∉ t.records.map Prod.fst :=
      (dictGet_eq_none_iff_map _ _).mp hv
    rw [if_neg (by
      intro hdel
      exact htr ((mem_filter_not_contains _ _ n).mp hdel).1)]
    rw [hv]
    rw [if_neg (by
      intro hnew
      exact hcur (List.mem_filter.mp hnew).1)]

theorem C8_reconcile_exact_witness :
    (∀ v, dictGet [("A.zip", true), ("B.zip", false)] "A.zip" = some v →
      "A.zip" ∈ ["A.zip", "C.zip"].filter (isBackupFile [".zip"]) →
      dictGet (reconcileDirectory
          (BackupTracker.mk [("A.zip", true), ("B.zip", false)] none)
          ["A.zip", "C.zip"] [".zip"]).records "A.zip" = some v) ∧
    (dictGet [("A.zip", true), ("B.zip", false)] "A.zip" ≠ none →
      "A.zip" ∉ ["A.zip", "C.zip"].filter (isBackupFile [".zip"]) →
      dictGet (reconcileDirectory
          (BackupTracker.mk [("A.zip", true), ("B.zip", false)] none)
          ["A.zip", "C.zip"] [".zip"]).records "A.zip" = none) ∧
    (dictGet [("A.zip", true), ("B.zip", false)] "A.zip" = none →
      "A.zip" ∈ ["A.zip", "C.zip"].filter (isBackupFile [".zip"]) →
      dictGet (reconcileDirectory
          (BackupTracker.mk [("A.zip", true), ("B.zip", false)] none)
          ["A.zip", "C.zip"] [".zip"]).records "A.zip" = some false) ∧
    (dictGet [("A.zip", true), ("B.zip", false)] "A.zip" = none →
      "A.zip" ∉ ["A.zip", "C.zip"].filter (isBackupFile [".zip"]) →
      dictGet (reconcileDirectory
          (BackupTracker.mk [("A.zip", true), ("B.zip", false)] none)
          ["A.zip", "C.zip"] [".zip"]).records "A.zip" = none) :=
  C8_reconcile_exact
    (BackupTracker.mk [("A.zip", true), ("B.zip", false)] none)
    ["A.zip", "C.zip"] [".zip"] "A.zip"

/-! Section: lemmas for the batch cycle, the C6 claim -/

theorem getUnsent_mem_get (t : BackupTracker)
    (hnodup : (t.records.map Prod.fst).Nodup) (f : String)
    (hmem : f ∈ t.getUnsent) : dictGet t.records f = some false := by
  rcases List.mem_map.mp hmem with ⟨p, hp, hfst⟩
  rcases List.mem_filter.mp hp with ⟨hpl, hflag⟩
  have hp2 : p.2 = false := by simpa using hflag
  have hpe : p = (f, false) := by
    cases p
    simp only at hfst hp2
    rw [hfst, hp2]
  exact dictGet_of_mem_nodup _ _ _ hnodup (hpe ▸ hpl)

theorem foldSend_calls (env : String → SendOutcome) (names : List String) :
    ∀ (t0 : BackupTracker) (cs : List String),
      (names.foldl
        (fun acc f =>
          if sendSucceeds (env f) then (acc.1.markSent f, acc.2 ++ [f])
          else acc)
        (t0, cs)).2
      = cs ++ names.filter (fun f => sendSucceeds (env f)) := by
  induction names with
  | nil => intro t0 cs; simp
  | cons a names ih =>
    intro t0 cs
    rw [List.foldl_cons]
    by_cases ha : sendSucceeds (env a) = true
    · rw [if_pos ha, ih]
      simp [List.filter_cons, ha]
    · rw [if_neg (by simpa using ha), ih]
      simp [List.filter_cons, ha]

theorem foldSend_get (env : String → SendOutcome) (names : List String) :
    ∀ (t0 : BackupTracker) (cs : List String) (f : String),
      dictGet ((names.foldl
        (fun acc g =>
          if sendSucceeds (env g) then (acc.1.markSent g, acc.2 ++ [g])
          else acc)
        (t0, cs)).1.records) f
      = if f ∈ names ∧ sendSucceeds (env f) = true then some true
        else dictGet t0.records f := by
  induction names with
  | nil => intro t0 cs f; simp
  | cons a names ih =>
    intro t0 cs f
    rw [List.foldl_cons]
    by_cases ha : sendSucceeds (env a) = true
    · rw [if_pos ha, ih]
      by_cases hf : f ∈ names ∧ sendSucceeds (env f) = true
      · rw [if_pos hf, if_pos ⟨List.mem_cons_of_mem a hf.1, hf.2⟩]
      · rw [if_neg hf]
        by_cases hfa : f = a
        · rw [if_pos ⟨by rw [hfa]; exact List.mem_cons_self a names,
            by rw [hfa]; exact ha⟩]
          rw [markSent_records, hfa, dictGet_dictSet_self]
        · rw [if_neg (by
            intro hc
            rcases List.mem_cons.mp hc.1 with h1 | h2
            · exact hfa h1
            · exact hf ⟨h2, hc.2⟩)]
          rw [markSent_records, dictGet_dictSet_ne _ _ _ _ hfa]
    · rw [if_neg (by simpa using ha), ih]
      by_cases hf : f ∈ names ∧ sendSucceeds (env f) = true
      · rw [if_pos hf, if_pos ⟨List.mem_cons_of_mem a hf.1, hf.2⟩]
      · rw [if_neg hf, if_neg (by
          intro hc
          rcases List.mem_cons.mp hc.1 with h1 | h2
          · rw [h1] at hc
            exact ha hc.2
          · exact hf ⟨h2, hc.2⟩)]

/-- C6: within one batch cycle, `mark_sent` is called exactly on the
unsent artifacts whose upload returned success (in processing order), a
successful artifact ends the cycle marked sent, and an artifact whose
attempt failed for any reason — not stable, file gone, any non-200
outcome — is left unsent while the cycle continues to the following
artifacts (a later success is still recorded after an earlier failure). -/
theorem C6_cycle_isolation (t : BackupTracker) (env : String → SendOutcome)
    (hnodup : (t.records.map Prod.fst).Nodup) :
    (processUnsent t env).2
      = t.getUnsent.filter (fun f => sendSucceeds (env f)) ∧
    (∀ f ∈ t.getUnsent, sendSucceeds (env f) = true →
      dictGet (processUnsent t env).1.records f = some true) ∧
    (∀ f ∈ t.getUnsent, sendSucceeds (env f) = false →
      dictGet (processUnsent t env).1.records f = some false) := by
  refine ⟨?_, ?_, ?_⟩
  · simp only [processUnsent]
    exact foldSend_calls env t.getUnsent t []
  · intro f hf hs
    simp only [processUnsent]
    rw [foldSend_get env t.getUnsent t [] f, if_pos ⟨hf, hs⟩]
  · intro f hf hs
    simp only [processUnsent]
    rw [foldSend_get env t.getUnsent t [] f,
      if_neg (by intro hc; rw [hs] at hc; exact Bool.false_ne_true hc.2)]
    exact getUnsent_mem_get t hnodup f hf

theorem C6_cycle_isolation_witness :
    ((processUnsent
        (BackupTracker.mk [("a", false), ("b", false), ("c", true)] none)
        (fun f => if f = "b" then SendOutcome.timeoutErr
          else SendOutcome.success)).2
      = (BackupTracker.mk
          [("a", false), ("b", false), ("c", true)] none).getUnsent.filter
          (fun f => sendSucceeds
            (if f = "b" then SendOutcome.timeoutErr
              else SendOutcome.success))) ∧
    (∀ f ∈ (BackupTracker.mk
        [("a", false), ("b", false), ("c", true)] none).getUnsent,
      sendSucceeds (if f = "b" then SendOutcome.timeoutErr
        else SendOutcome.success) = true →
      dictGet (processUnsent
        (BackupTracker.mk [("a", false), ("b", false), ("c", true)] none)
        (fun f => if f = "b" then SendOutcome.timeoutErr
          else SendOutcome.success)).1.records f = some true) ∧
    (∀ f ∈ (BackupTracker.mk
        [("a", false), ("b", false), ("c", true)] none).getUnsent,
      sendSucceeds (if f = "b" then SendOutcome.timeoutErr
        else SendOutcome.success) = false →
      dictGet (processUnsent
        (BackupTracker.mk [("a", false), ("b", false), ("c", true)] none)
        (fun f => if f = "b" then SendOutcome.timeoutErr
          else SendOutcome.success)).1.records f = some false) :=
  C6_cycle_isolation
    (BackupTracker.mk [("a", false), ("b", false), ("c", true)] none)
    (fun f => if f = "b" then SendOutcome.timeoutErr
      else SendOutcome.success)
    (by decide)

/-! Section: the C1 claim, the stability detector -/

/-- C1: evaluation of the stability loop at the decisive inputs.  The
code judges a constant-size file stable as soon as a single observation
repeats the previous one (two samples, one unchanged comparison, with
`stable_count = 1`), because its `return True` is positioned on every
equal-size path rather than under the `stable_count >= 3` test; the
intended loop (the code's own comment and the spec) is still undecided on
those two samples and needs four.  A file whose size changes on every
sample runs into the timeout and is judged not stable, and a file that
disappears is judged not stable, as specified. -/
theorem C1_stability_detector_code_bug :
    waitForFileStable [some 5, some 5] 60 = some true ∧
    waitForFileStableIntended [some 5, some 5] 60 = none ∧
    waitForFileStableIntended [some 5, some 5, some 5, some 5] 60
      = some true ∧
    waitForFileStable [some 1, some 2, some 3] 4 = some false ∧
    waitForFileStableIntended [some 1, some 2, some 3] 4 = some false ∧
    waitForFileStable [none] 60 = some false := by
  decide

/-! Section: the C9 claim, the progress wrapper -/

/-- C9: the progress byte-count mechanism is not purely observational.
On a zero-byte artifact the first `read` divides by `total_size = 0` and
raises `ZeroDivisionError`; inside `send_backup`'s `try` this turns the
attempt into a failure even though the upload without observation would
have succeeded.  On an artifact with nonzero size the wrapper is neutral
and the outcome equals the unobserved upload's outcome. -/
theorem C9_progress_zero_byte_code_bug :
    readAllThroughWrapper 0 [0] = Except.error () ∧
    sendBackupWithProgress true 0 [0] SendOutcome.success = false ∧
    sendBackupNoProgress true SendOutcome.success = true ∧
    sendBackupWithProgress true 10 [4, 4, 2, 0] SendOutcome.success
      = sendBackupNoProgress true SendOutcome.success ∧
    sendBackupWithProgress true 10 [4, 4, 2, 0] SendOutcome.timeoutErr
      = sendBackupNoProgress true SendOutcome.timeoutErr :=
  ⟨rfl, rfl, rfl, rfl, rfl⟩

/-! Section: the C10 claim, the status-code classification -/

/-- C10 counterexample: the empty string is a stream identity that is not
configured, yet querying stats for it does not yield a 500 lookup error —
Python's `if game_name:` treats it as "no stream given" and the endpoint
returns 200 with stats for all streams. -/
theorem C10_stats_empty_name_counterexample :
    ([("alpha", 5)] : List (String × Int)).any (fun p => p.1 = "") = false ∧
    getStatsStatus [("alpha", 5)] (some "") = 200 := by
  decide

/-- C10 amended: for every non-empty stream identity that is not
configured, the stats endpoint surfaces the `KeyError` as a server-error
500 while the ingest endpoint surfaces the same unknown stream as a
client-error 400 — the two endpoints classify the identical unknown-stream
input differently; the empty identity is instead treated by stats as "no
stream given" and answered 200. -/
theorem C10_stats_vs_ingest_amended (games : List (String × Int))
    (g : String) (hne : g ≠ "")
    (hunk : games.any (fun p => p.1 = g) = false) :
    getStatsStatus games (some g) = 500 ∧
    receiveBackupStatus games g = 400 ∧
    getStatsStatus games (some g) ≠ receiveBackupStatus games g := by
  have h1 : getStatsStatus games (some g) = 500 := by
    simp only [getStatsStatus]
    rw [if_neg hne, if_neg (by rw [hunk]; exact Bool.false_ne_true)]
  have h2 : receiveBackupStatus games g = 400 := by
    simp only [receiveBackupStatus]
    rw [if_neg (by rw [hunk]; exact Bool.false_ne_true)]
  refine ⟨h1, h2, ?_⟩
  rw [h1, h2]
  norm_num

theorem C10_stats_vs_ingest_amended_witness :
    getStatsStatus [("alpha", 5)] (some "nope") = 500 ∧
    receiveBackupStatus [("alpha", 5)] "nope" = 400 ∧
    getStatsStatus [("alpha", 5)] (some "nope")
      ≠ receiveBackupStatus [("alpha", 5)] "nope" :=
  C10_stats_vs_ingest_amended [("alpha", 5)] "nope" (by decide) (by decide)

end BackupService
